import Mathlib

/-!
Formal model of the GPX track-normalization pipeline (gpx_fix.py) and of the
duration re-timer of gps_route_manager.py.

Modelling conventions:
- Coordinates, elevations and timestamps are rational numbers.  A Python
  datetime is modelled as a rational number of seconds since an arbitrary
  epoch; datetime subtraction followed by total_seconds() is rational
  subtraction.
- The great-circle distance haversine_m (and the identical
  haversine_distance of gps_route_manager.py) is transcendental, so every
  function that calls it takes the distance function as an explicit
  parameter with the same four-argument shape (lat1 lon1 lat2 lon2).
- Optional Python values (None) are modelled with Option.
- Fallible functions return Except; the error constructors record which
  Python exception is raised where.
- Tracks and segments are flattened into one point list, matching the
  iteration order of the nested loops in the source.
-/

/-- Shape of the abstract distance function haversine_m(lat1, lon1, lat2, lon2). -/
abbrev HavDist : Type := ℚ → ℚ → ℚ → ℚ → ℚ

/-- A raw parsed GPX track point: latitude, longitude, elevation and time may
all be absent, as in gpxpy before validation. -/
structure RawPoint where
  lat : Option ℚ
  lon : Option ℚ
  ele : Option ℚ
  time : Option ℚ
  deriving DecidableEq

/-- A track point whose coordinates are known to be present (the collection
loops of clean_points and add_synthetic_timestamps only keep such points). -/
structure Pt where
  lat : ℚ
  lon : ℚ
  ele : Option ℚ
  time : Option ℚ
  deriving DecidableEq, Inhabited

/-- Timestamp value of a point.  Every comparison or subtraction of times in
the source happens on points whose time is present; the default 0 is never
reached on those paths. -/
def tval (p : Pt) : ℚ := p.time.getD 0

/-- Distance between two points, as the source writes it:
haversine_m(a.latitude, a.longitude, b.latitude, b.longitude). -/
def dd (d : HavDist) (a b : Pt) : ℚ := d a.lat a.lon b.lat b.lon

/-- Keep a raw point when both coordinates are present (the condition
"p.latitude is not None and p.longitude is not None"). -/
def toPt (r : RawPoint) : Option Pt :=
  match r.lat, r.lon with
  | some la, some lo => some ⟨la, lo, r.ele, r.time⟩
  | _, _ => none

/-- All points of the document that have both coordinates, in order. -/
def collectPts (gpx : List RawPoint) : List Pt := gpx.filterMap toPt

/-- Errors raised by the cleaning pipeline of gpx_fix.py:
ValueError "No valid timestamped points.", ValueError
"No valid points with coordinates.", and the TypeError that list.sort
raises when comparing None with a datetime. -/
inductive CleanError where
  | noTimestampedPoints
  | noCoordinatePoints
  | typeError
  deriving DecidableEq

/-- Timestamp-assignment loop of add_synthetic_timestamps: the first point
gets the running clock, each later point advances it by
dist / avg_speed_ms when avg_speed_ms > 0 and by 1.0 second otherwise. -/
def synthGo (d : HavDist) (avg : ℚ) : ℚ → Pt → List Pt → List Pt
  | t, p, [] => [{ p with time := some t }]
  | t, p, q :: rest =>
      { p with time := some t } ::
        synthGo d avg (t + (if 0 < avg then dd d p q / avg else 1)) q rest

/-- add_synthetic_timestamps(gpx, avg_speed_ms, start_time): collects the
coordinate points, fails on an empty collection, otherwise assigns times
from start_time using the assumed speed. -/
def add_synthetic_timestamps (d : HavDist) (avg_speed_ms start_time : ℚ)
    (gpx : List RawPoint) : Except CleanError (List Pt) :=
  match collectPts gpx with
  | [] => Except.error CleanError.noCoordinatePoints
  | p :: rest => Except.ok (synthGo d avg_speed_ms start_time p rest)

/-- Collection loop of clean_points: keep a coordinate point when it has a
time, or unconditionally when add_timestamps is enabled. -/
def cleanCollect (add_timestamps : Bool) (gpx : List RawPoint) : List Pt :=
  (collectPts gpx).filter fun p => p.time.isSome || add_timestamps

/-- The has_timestamps flag of clean_points: set when some coordinate point
has a time. -/
def hasTimestamps (gpx : List RawPoint) : Bool :=
  (collectPts gpx).any fun p => p.time.isSome

/-- Python "avg_speed or 25.0": both None and 0.0 are falsy. -/
def avgOr25 (avg_speed : Option ℚ) : ℚ :=
  match avg_speed with
  | none => 25
  | some v => if v = 0 then 25 else v

/-- Insert a point after every already-present point with a time not above
its own, as a stable sort step. -/
def insertByTime (p : Pt) : List Pt → List Pt
  | [] => [p]
  | q :: rest => if tval q ≤ tval p then q :: insertByTime p rest else p :: q :: rest

/-- pts.sort(key=lambda p: p.time): a stable ascending sort by timestamp,
modelled as stable insertion sort (extensionally equal to Timsort). -/
def sortByTime (l : List Pt) : List Pt :=
  l.foldl (fun acc p => insertByTime p acc) []

/-- Strict-monotonicity pass of clean_points: drop a point whose time is not
strictly above the last kept time.  All times are present when this runs
(the sort stage has already raised otherwise). -/
def monoFilter : Option ℚ → List Pt → List Pt
  | _, [] => []
  | none, p :: rest => p :: monoFilter p.time rest
  | some t, p :: rest =>
      if tval p ≤ t then monoFilter (some t) rest
      else p :: monoFilter p.time rest

/-- Deduplication and speed-spike loop of clean_points, after the first kept
point: drop when elapsed time is not positive, when the distance from the
last kept point is below min_dist, or when distance / elapsed exceeds
max_speed. -/
def speedGo (d : HavDist) (max_speed min_dist : ℚ) (last : Pt) : List Pt → List Pt
  | [] => []
  | p :: rest =>
      let dt := tval p - tval last
      if dt ≤ 0 then speedGo d max_speed min_dist last rest
      else
        let dst := dd d last p
        if dst < min_dist then speedGo d max_speed min_dist last rest
        else if max_speed < dst / dt then speedGo d max_speed min_dist last rest
        else p :: speedGo d max_speed min_dist p rest

/-- Final filtering pass of clean_points: always keep the first point, then
run the deduplication and speed-spike loop. -/
def speedFilter (d : HavDist) (max_speed min_dist : ℚ) : List Pt → List Pt
  | [] => []
  | p :: rest => p :: speedGo d max_speed min_dist p rest

/-- Sort, monotonicity pass and filtering pass of clean_points.  When the
collected list still holds a point without a time and has at least two
elements, list.sort compares None with a datetime and raises TypeError
(with two or more elements every element takes part in a comparison). -/
def cleanCore (d : HavDist) (max_speed min_dist : ℚ) (pts : List Pt) :
    Except CleanError (List Pt) :=
  if 2 ≤ pts.length ∧ ∃ p ∈ pts, p.time = none then Except.error CleanError.typeError
  else Except.ok (speedFilter d max_speed min_dist (monoFilter none (sortByTime pts)))

/-- clean_points(gpx, max_speed, min_dist, add_timestamps, avg_speed): the
collection loop, the synthetic-generation branch, the
no-valid-timestamped-points error, and the sort / monotonicity / filter
stages, in the source's order. -/
def clean_points (d : HavDist) (max_speed min_dist : ℚ) (add_timestamps : Bool)
    (avg_speed : Option ℚ) (now : ℚ) (gpx : List RawPoint) :
    Except CleanError (List Pt) :=
  let pts := cleanCollect add_timestamps gpx
  let hts := hasTimestamps gpx
  if hts = false ∧ add_timestamps = true ∧ pts ≠ [] then
    match add_synthetic_timestamps d (avgOr25 avg_speed) now gpx with
    | Except.error e => Except.error e
    | Except.ok pts2 => cleanCore d max_speed min_dist pts2
  else if pts = [] ∨ (hts = false ∧ add_timestamps = false) then
    Except.error CleanError.noTimestampedPoints
  else cleanCore d max_speed min_dist pts

/-- interp(p1, p2, t_target): linear interpolation between two timestamped
points; returns p1 when the two times coincide; elevation interpolates only
when both endpoints carry one. -/
def interp (p1 p2 : Pt) (t_target : ℚ) : Pt :=
  let t1 := tval p1
  let t2 := tval p2
  if t2 = t1 then p1
  else
    let a := (t_target - t1) / (t2 - t1)
    { lat := p1.lat + a * (p2.lat - p1.lat)
      lon := p1.lon + a * (p2.lon - p1.lon)
      ele := (match p1.ele, p2.ele with
              | some e1, some e2 => some (e1 + a * (e2 - e1))
              | _, _ => none)
      time := some t_target }

/-- Cursor-advance loop of resample_uniform:
while i < len(points)-2 and points[i+1].time <= t, increment i.  The fuel
argument is called with the list length, which bounds the number of
increments the loop can make from any starting index. -/
def advance (points : List Pt) (t : ℚ) : ℕ → ℕ → ℕ
  | i, 0 => i
  | i, fuel + 1 =>
      if i < points.length - 2 ∧ tval (points.getD (i + 1) default) ≤ t then
        advance points t (i + 1) fuel
      else i

/-- Body of the resampling loop: one output point per step of the virtual
clock, choosing an endpoint when the step time clamps outside the bracketing
pair and interpolating otherwise. -/
def resampleLoop (points : List Pt) (step : ℚ) : ℚ → ℕ → ℕ → List Pt
  | _, _, 0 => []
  | t, i, n + 1 =>
      let i2 := advance points t i points.length
      let p1 := points.getD i2 default
      let p2 := points.getD (min (i2 + 1) (points.length - 1)) default
      (if t ≤ tval p1 then p1 else if tval p2 ≤ t then p2 else interp p1 p2 t) ::
        resampleLoop points step (t + step) i2 n

/-- resample_uniform(points, interval_s): unchanged below two points;
otherwise a virtual clock t runs from the first time while t <= the last
time in steps of interval_s, producing one point per step.  For a positive
interval and start <= end the loop runs floor((end-start)/interval)+1
times; for a non-positive interval the source loop never terminates, so the
model is only meaningful for a positive interval. -/
def resample_uniform (points : List Pt) (interval_s : ℚ) : List Pt :=
  if points.length < 2 then points
  else
    let start := tval (points.headD default)
    let fin := tval (points.getLastD default)
    let steps : ℕ :=
      if 0 < interval_s ∧ start ≤ fin then (Int.floor ((fin - start) / interval_s)).toNat + 1
      else 0
    resampleLoop points interval_s start 0 steps

/-- Round to the nearest integer, ties to the even neighbour, as Python's
round does. -/
def rndHalfEven (x : ℚ) : ℤ :=
  let f := Int.floor x
  let r := x - f
  if r < 1 / 2 then f
  else if 1 / 2 < r then f + 1
  else if 2 ∣ f then f else f + 1

/-- Python round(x, n): round x to n decimal digits. -/
def roundDec (n : ℤ) (x : ℚ) : ℚ :=
  ((rndHalfEven (x * 10 ^ n) : ℚ)) / 10 ^ n

/-- round_coords(points, precision, drop_ele): identity fast path when the
precision is unset and elevation is kept; otherwise rebuild each point with
rounded coordinates, elevation possibly dropped, and the time carried over. -/
def round_coords (points : List Pt) (precision : Option ℤ) (drop_ele : Bool) :
    List Pt :=
  if precision = none ∧ drop_ele = false then points
  else
    points.map fun p =>
      { lat := (match precision with | some n => roundDec n p.lat | none => p.lat)
        lon := (match precision with | some n => roundDec n p.lon | none => p.lon)
        ele := if drop_ele then none else p.ele
        time := p.time }

/-- The argparse namespace fields that apply_profile reads and writes.  A
field is none exactly when the user supplied no explicit value. -/
structure Args where
  profile : String
  interval : Option ℚ
  simplify : Option ℚ
  precision : Option ℤ
  add_timestamps : Option Bool
  zip : Option Bool
  max_speed : Option ℚ
  min_distance : Option ℚ
  avg_speed : Option ℚ
  drop_ele : Option Bool
  strip_extensions : Option Bool
  no_metadata : Option Bool
  deriving DecidableEq

/-- The namespace produced by the argument parser when the user passes only
a profile name: every overridable field is unset. -/
def initArgs (profile : String) : Args :=
  ⟨profile, none, none, none, none, none, none, none, none, none, none, none⟩

/-- apply_profile(args): fill the global defaults (interval 1.5, simplify
0.2, precision 7, add_timestamps and zip enabled) into unset fields, then
apply the profile-specific speed and distance defaults; an explicit
max_speed or min_distance survives, avg_speed is always overwritten. -/
def apply_profile (a0 : Args) : Args :=
  let a : Args := { a0 with
    interval := some (a0.interval.getD (3 / 2))
    simplify := some (a0.simplify.getD (1 / 5))
    precision := some (a0.precision.getD 7)
    add_timestamps := some (a0.add_timestamps.getD true)
    zip := some (a0.zip.getD true) }
  if a.profile = "car" then
    { a with
      max_speed := some (a.max_speed.getD 45)
      min_distance := some (a.min_distance.getD 2)
      avg_speed := some (139 / 10)
      drop_ele := some (a.drop_ele.getD true)
      strip_extensions := some (a.strip_extensions.getD true)
      no_metadata := some (a.no_metadata.getD true) }
  else if a.profile = "bike" then
    { a with
      max_speed := some (a.max_speed.getD 20)
      min_distance := some (a.min_distance.getD 1)
      avg_speed := some (28 / 5)
      drop_ele := some (a.drop_ele.getD true)
      strip_extensions := some (a.strip_extensions.getD true)
      no_metadata := some (a.no_metadata.getD true) }
  else if a.profile = "walk" then
    { a with
      max_speed := some (a.max_speed.getD 3)
      min_distance := some (a.min_distance.getD (1 / 2))
      avg_speed := some (7 / 5)
      drop_ele := some (a.drop_ele.getD true)
      strip_extensions := some (a.strip_extensions.getD true)
      no_metadata := some (a.no_metadata.getD true) }
  else a

/-- Sum of consecutive distances along a point list (the inner loop of
calculate_route_distance and of regenerate_timestamps_with_speed). -/
def pathLen (d : HavDist) : List Pt → ℚ
  | [] => 0
  | [_] => 0
  | a :: b :: rest => dd d a b + pathLen d (b :: rest)

/-- calculate_route_distance for a single-segment track: segments with
fewer than two points are skipped, so they contribute 0. -/
def calculate_route_distance (d : HavDist) (pts : List Pt) : ℚ :=
  if pts.length < 2 then 0 else pathLen d pts

/-- The ZeroDivisionError that Python raises on float division by zero in
the retiming functions. -/
inductive RetimeError where
  | divByZero
  deriving DecidableEq

/-- Retiming loop of regenerate_timestamps_with_speed after the first point:
accumulate the distance walked so far and place each point at
start + (cum / total) * totalTime. -/
def retimeAux (d : HavDist) (start total totalTime : ℚ) :
    ℚ → Pt → List Pt → List Pt
  | _, _, [] => []
  | cum, prev, p :: rest =>
      let cum2 := cum + dd d prev p
      { p with time := some (start + cum2 / total * totalTime) } ::
        retimeAux d start total totalTime cum2 p rest

/-- Retiming of one segment: the first point gets the start instant, the
rest are placed by distance progression. -/
def retimeHead (d : HavDist) (start total totalTime : ℚ) : List Pt → List Pt
  | [] => []
  | p :: rest =>
      { p with time := some start } :: retimeAux d start total totalTime 0 p rest

/-- regenerate_timestamps_with_speed(gpx_file, target_speed_ms) on a
single-segment track: total_time = total_distance / speed raises
ZeroDivisionError when the speed is 0; a segment with fewer than two points
is skipped, leaving its timestamps unchanged; with two or more points and a
zero total distance the expression current / total raises
ZeroDivisionError; otherwise every point is re-timed.  The source catches
the raised error inside the function, leaving the file un-retimed; the
model surfaces the raise as Except.error. -/
def regenerate_timestamps_with_speed (d : HavDist) (speed start : ℚ)
    (pts : List Pt) : Except RetimeError (List Pt) :=
  let total := calculate_route_distance d pts
  if speed = 0 then Except.error RetimeError.divByZero
  else
    let totalTime := total / speed
    if pts.length < 2 then Except.ok pts
    else if total = 0 then Except.error RetimeError.divByZero
    else Except.ok (retimeHead d start total totalTime pts)

/-- The 6 km/h minimum-speed floor of create_and_import_duration, written as
the source writes it. -/
def minSpeedFloor : ℚ := 6 * 1000 / 3600

/-- Numeric core of create_and_import_duration(file, duration_minutes):
compute the route distance of the original file, derive the target speed
for the requested duration (a zero denominator raises ZeroDivisionError
inside the function's try block, so no output is produced), clamp it to
the 6 km/h floor, and re-time the processed track at the clamped speed.
Between the clamp and the retiming, fix_file_with_speed rewrites the file
through the whole gpx_fix.py pipeline — clean, resample, simplify,
quantize, with timestamp generation forced on — in a subprocess; that file
transformation is the explicit parameter fix.
regenerate_timestamps_with_speed catches its own exceptions and leaves the
file with the gpx_fix timestamps, after which processing continues; the
error arm of the match models that. -/
def create_and_import_duration (d : HavDist) (fix : List Pt → List Pt)
    (duration_minutes start : ℚ) (pts : List Pt) :
    Except RetimeError (List Pt) :=
  let route_distance := calculate_route_distance d pts
  if duration_minutes * 60 = 0 then Except.error RetimeError.divByZero
  else
    let target := max (route_distance / (duration_minutes * 60)) minSpeedFloor
    match regenerate_timestamps_with_speed d target start (fix pts) with
    | Except.ok out => Except.ok out
    | Except.error _ => Except.ok (fix pts)

/-- Elapsed time between the first and last point of a track. -/
def elapsed (l : List Pt) : ℚ := tval (l.getLastD default) - tval (l.headD default)

/-! Helper lemmas for the coordinate quantizer. -/

lemma rndHalfEven_intCast (n : ℤ) : rndHalfEven (n : ℚ) = n := by
  unfold rndHalfEven
  simp

lemma roundDec_idem (n : ℤ) (x : ℚ) : roundDec n (roundDec n x) = roundDec n x := by
  unfold roundDec
  have h10 : ((10 : ℚ)) ^ n ≠ 0 := zpow_ne_zero n (by norm_num)
  rw [div_mul_cancel₀ _ h10, rndHalfEven_intCast]

/-- The per-point rebuild of round_coords. -/
def roundPt (precision : Option ℤ) (drop_ele : Bool) (p : Pt) : Pt :=
  { lat := (match precision with | some n => roundDec n p.lat | none => p.lat)
    lon := (match precision with | some n => roundDec n p.lon | none => p.lon)
    ele := if drop_ele then none else p.ele
    time := p.time }

lemma round_coords_eq (points : List Pt) (precision : Option ℤ) (drop_ele : Bool) :
    round_coords points precision drop_ele =
      if precision = none ∧ drop_ele = false then points
      else points.map (roundPt precision drop_ele) := by
  rfl

lemma roundPt_idem (precision : Option ℤ) (drop_ele : Bool) (p : Pt) :
    roundPt precision drop_ele (roundPt precision drop_ele p) =
      roundPt precision drop_ele p := by
  unfold roundPt
  cases precision with
  | none => cases drop_ele <;> simp
  | some n => cases drop_ele <;> simp [roundDec_idem]

lemma round_coords_full_idem (points : List Pt) (precision : Option ℤ)
    (drop_ele : Bool) :
    round_coords (round_coords points precision drop_ele) precision drop_ele =
      round_coords points precision drop_ele := by
  rw [round_coords_eq, round_coords_eq]
  by_cases h : precision = none ∧ drop_ele = false
  · simp [h]
  · simp only [if_neg h, List.map_map]
    exact List.map_congr_left fun p _ => roundPt_idem precision drop_ele p

/-- C8: the Coordinate Quantizer is idempotent: re-applying round_coords
with the same precision and drop-elevation flag changes no latitude or
longitude value. -/
theorem round_coords_idempotent (points : List Pt) (precision : Option ℤ)
    (drop_ele : Bool) :
    (round_coords (round_coords points precision drop_ele) precision
        drop_ele).map Pt.lat =
      (round_coords points precision drop_ele).map Pt.lat ∧
    (round_coords (round_coords points precision drop_ele) precision
        drop_ele).map Pt.lon =
      (round_coords points precision drop_ele).map Pt.lon := by
  rw [round_coords_full_idem]
  exact ⟨rfl, rfl⟩

/-- C10: round_coords keeps the number and order of points and every point's
timestamp; only latitude, longitude and elevation can change. -/
theorem round_coords_frame (points : List Pt) (precision : Option ℤ)
    (drop_ele : Bool) :
    (round_coords points precision drop_ele).length = points.length ∧
    (round_coords points precision drop_ele).map Pt.time = points.map Pt.time := by
  rw [round_coords_eq]
  by_cases h : precision = none ∧ drop_ele = false
  · simp [h]
  · refine ⟨by simp [h], ?_⟩
    simp only [if_neg h, List.map_map]
    exact List.map_congr_left fun p _ => rfl

/-- C1: on a mixed input whose first point is timestamped and whose second
coordinate point is not, with timestamp generation enabled (the default),
clean_points keeps the untimed point in the collected list and the sort by
timestamp raises TypeError instead of dropping the point and succeeding. -/
theorem clean_points_mixed_timestamps_crash :
    clean_points (fun _ _ _ _ => 200) 45 2 true none 0
        [⟨some 0, some 0, none, some 0⟩, ⟨some 0, some 1, none, none⟩] =
      Except.error CleanError.typeError := by
  rfl

/-- C7: with no explicit overrides, apply_profile resolves car to
maxSpeed 45, minDistance 2, avgSpeed 13.9; bike to 20, 1, 5.6; walk to 3,
0.5, 1.4; every profile gets interval 1.5 s, simplify 0.2 m, precision 7,
timestamp generation enabled and drop-elevation, strip-extensions,
drop-metadata all true; an explicit max_speed or min_distance value is
preserved verbatim. -/
theorem apply_profile_defaults :
    apply_profile (initArgs "car") =
      ⟨"car", some (3 / 2), some (1 / 5), some 7, some true, some true,
        some 45, some 2, some (139 / 10), some true, some true, some true⟩ ∧
    apply_profile (initArgs "bike") =
      ⟨"bike", some (3 / 2), some (1 / 5), some 7, some true, some true,
        some 20, some 1, some (28 / 5), some true, some true, some true⟩ ∧
    apply_profile (initArgs "walk") =
      ⟨"walk", some (3 / 2), some (1 / 5), some 7, some true, some true,
        some 3, some (1 / 2), some (7 / 5), some true, some true, some true⟩ ∧
    (∀ (a : Args) (m : ℚ), a.max_speed = some m →
      (apply_profile a).max_speed = some m) ∧
    (∀ (a : Args) (m : ℚ), a.min_distance = some m →
      (apply_profile a).min_distance = some m) := by
  refine ⟨by rfl, by rfl, by rfl, ?_, ?_⟩
  · intro a m h
    unfold apply_profile
    by_cases h1 : a.profile = "car" <;> by_cases h2 : a.profile = "bike" <;>
      by_cases h3 : a.profile = "walk" <;> simp [h1, h2, h3, h]
  · intro a m h
    unfold apply_profile
    by_cases h1 : a.profile = "car" <;> by_cases h2 : a.profile = "bike" <;>
      by_cases h3 : a.profile = "walk" <;> simp [h1, h2, h3, h]

/-- Closed instance of the override clause of the profile resolver: an
explicitly supplied max-speed 99 and min-distance 9 survive apply_profile. -/
theorem apply_profile_defaults_witness :
    (apply_profile { initArgs "car" with max_speed := some 99 }).max_speed =
        some 99 ∧
    (apply_profile { initArgs "walk" with min_distance := some 9 }).min_distance =
        some 9 :=
  ⟨apply_profile_defaults.2.2.2.1 _ 99 rfl,
   apply_profile_defaults.2.2.2.2 _ 9 rfl⟩

/-- Reference list with one-second spacing, used to describe synthGo when
the assumed speed is not positive. -/
def unitTimes : ℚ → List Pt → List Pt
  | _, [] => []
  | t, p :: rest => { p with time := some t } :: unitTimes (t + 1) rest

lemma synthGo_nonpos (d : HavDist) (avg : ℚ) (hv : avg ≤ 0) :
    ∀ (l : List Pt) (p : Pt) (t : ℚ),
      synthGo d avg t p l = unitTimes t (p :: l) := by
  intro l
  induction l with
  | nil => intro p t; simp [synthGo, unitTimes]
  | cons q rest ih =>
      intro p t
      have hneg : ¬ (0 < avg) := not_lt.mpr hv
      simp only [synthGo, unitTimes, if_neg hneg, ih]

lemma unitTimes_chain_succ :
    ∀ (l : List Pt) (t : ℚ),
      List.Chain' (fun a b => b.time = some (tval a + 1)) (unitTimes t l) := by
  intro l
  induction l with
  | nil => intro t; simp [unitTimes]
  | cons p rest ih =>
      intro t
      cases rest with
      | nil => simp [unitTimes]
      | cons q r =>
          rw [unitTimes, unitTimes, List.chain'_cons]
          refine ⟨by simp [tval], ?_⟩
          have := ih (t + 1)
          rw [unitTimes] at this
          exact this

/-- C9: when add_synthetic_timestamps is given a non-positive assumed speed,
each consecutive pair of output points is exactly one second apart (the
fixed 1.0-second branch replaces distance / speed, so no division by zero
happens) and the timestamps are strictly increasing from the start time. -/
theorem add_synthetic_timestamps_unit_delta (d : HavDist) (avg start : ℚ)
    (gpx : List RawPoint) (out : List Pt)
    (hv : avg ≤ 0)
    (h : add_synthetic_timestamps d avg start gpx = Except.ok out) :
    out ≠ [] ∧ (out.headD default).time = some start ∧
    List.Chain' (fun a b => b.time = some (tval a + 1)) out ∧
    List.Chain' (fun a b => tval a < tval b) out := by
  unfold add_synthetic_timestamps at h
  cases hc : collectPts gpx with
  | nil => rw [hc] at h; exact absurd h (by simp)
  | cons p rest =>
      rw [hc] at h
      have hout : out = synthGo d avg start p rest := by
        cases h; rfl
      rw [hout, synthGo_nonpos d avg hv]
      have hchain := unitTimes_chain_succ (p :: rest) start
      refine ⟨by simp [unitTimes], by simp [unitTimes], hchain, ?_⟩
      refine List.Chain'.imp ?_ hchain
      intro a b hab
      simp [tval, hab]

/-- Closed instance of the unit-delta property: two coordinate points, an
assumed speed of 0, start time 5; the synthetic timestamps are 5 and 6. -/
theorem add_synthetic_timestamps_unit_delta_witness :
    ([⟨0, 0, none, some 5⟩, ⟨1, 1, none, some 6⟩] : List Pt) ≠ [] ∧
    (([⟨0, 0, none, some 5⟩, ⟨1, 1, none, some 6⟩] : List Pt).headD
        default).time = some 5 ∧
    List.Chain' (fun a b => b.time = some (tval a + 1))
      ([⟨0, 0, none, some 5⟩, ⟨1, 1, none, some 6⟩] : List Pt) ∧
    List.Chain' (fun a b => tval a < tval b)
      ([⟨0, 0, none, some 5⟩, ⟨1, 1, none, some 6⟩] : List Pt) :=
  add_synthetic_timestamps_unit_delta (fun _ _ _ _ => 7) 0 5
    [⟨some 0, some 0, none, none⟩, ⟨some 1, some 1, none, none⟩]
    [⟨0, 0, none, some 5⟩, ⟨1, 1, none, some 6⟩] (le_refl 0)
    (by simp only [add_synthetic_timestamps, collectPts, List.filterMap_cons,
          List.filterMap_nil, toPt]
        norm_num [synthGo])

/-! Helper lemmas for the duration re-timer. -/

/-- Coordinate view of a point list; the distance functions read nothing
else. -/
def coords (l : List Pt) : List (ℚ × ℚ) := l.map fun p => (p.lat, p.lon)

lemma pathLen_eq_of_coords (d : HavDist) :
    ∀ (l l' : List Pt), coords l = coords l' → pathLen d l = pathLen d l' := by
  intro l
  induction l with
  | nil =>
      intro l' h
      cases l' with
      | nil => rfl
      | cons b bs => simp [coords] at h
  | cons a as ih =>
      intro l' h
      cases l' with
      | nil => simp [coords] at h
      | cons b bs =>
          simp only [coords, List.map_cons, List.cons.injEq, Prod.mk.injEq] at h
          obtain ⟨⟨hla, hlo⟩, htail⟩ := h
          cases as with
          | nil =>
              cases bs with
              | nil => rfl
              | cons c cs => simp at htail
          | cons x xs =>
              cases bs with
              | nil => simp at htail
              | cons y ys =>
                  have htail' : coords (x :: xs) = coords (y :: ys) := htail
                  have h1 : dd d a x = dd d b y := by
                    have hx : (x.lat, x.lon) = (y.lat, y.lon) := by
                      simpa [coords] using congrArg (fun t => t.headD (0, 0)) htail'
                    simp only [Prod.mk.injEq] at hx
                    unfold dd
                    rw [hla, hlo, hx.1, hx.2]
                  calc pathLen d (a :: x :: xs) = dd d a x + pathLen d (x :: xs) := rfl
                    _ = dd d b y + pathLen d (y :: ys) := by rw [h1, ih (y :: ys) htail']
                    _ = pathLen d (b :: y :: ys) := rfl

lemma coords_retimeAux (d : HavDist) (start total T : ℚ) :
    ∀ (l : List Pt) (cum : ℚ) (prev : Pt),
      coords (retimeAux d start total T cum prev l) = coords l := by
  intro l
  induction l with
  | nil => intro cum prev; rfl
  | cons p rest ih =>
      intro cum prev
      simp only [retimeAux, coords, List.map_cons]
      have := ih (cum + dd d prev p) p
      simp only [coords] at this
      rw [this]

lemma coords_retimeHead (d : HavDist) (start total T : ℚ) (l : List Pt) :
    coords (retimeHead d start total T l) = coords l := by
  cases l with
  | nil => rfl
  | cons p rest =>
      simp only [retimeHead, coords, List.map_cons]
      have := coords_retimeAux d start total T rest 0 p
      simp only [coords] at this
      rw [this]

lemma length_coords (l : List Pt) : (coords l).length = l.length := by
  simp [coords]

lemma retimeAux_getLastD (d : HavDist) (start total T : ℚ) :
    ∀ (l : List Pt) (cum : ℚ) (prev dflt : Pt), l ≠ [] →
      tval ((retimeAux d start total T cum prev l).getLastD dflt) =
        start + (cum + pathLen d (prev :: l)) / total * T := by
  intro l
  induction l with
  | nil => intro cum prev dflt h; exact absurd rfl h
  | cons p rest ih =>
      intro cum prev dflt h
      cases rest with
      | nil =>
          have hp : pathLen d [prev, p] = dd d prev p := by
            simp [pathLen]
          simp [retimeAux, List.getLastD, tval, hp]
      | cons q r =>
          rw [retimeAux, List.getLastD_cons]
          rw [ih (cum + dd d prev p) p _ (by simp)]
          have : pathLen d (prev :: p :: q :: r) =
              dd d prev p + pathLen d (p :: q :: r) := rfl
          rw [this]
          ring_nf

lemma calculate_route_distance_of_two_le (d : HavDist) (l : List Pt)
    (h : 2 ≤ l.length) : calculate_route_distance d l = pathLen d l := by
  unfold calculate_route_distance
  rw [if_neg (by omega)]

lemma length_retimeHead (d : HavDist) (start total T : ℚ) (l : List Pt) :
    (retimeHead d start total T l).length = l.length := by
  rw [← length_coords, coords_retimeHead, length_coords]

/-- Successful retiming of a track with at least two points and positive
path length: regenerate_timestamps_with_speed at a non-zero speed re-times
every point; the output keeps the geometry and its elapsed time is
pathLength / speed. -/
lemma regenerate_ok_props (d : HavDist) (speed start : ℚ) (q : List Pt)
    (hlen : 2 ≤ q.length) (hspeed : speed ≠ 0)
    (hpos : 0 < calculate_route_distance d q) :
    regenerate_timestamps_with_speed d speed start q =
      Except.ok (retimeHead d start (calculate_route_distance d q)
        (calculate_route_distance d q / speed) q) ∧
    calculate_route_distance d (retimeHead d start (calculate_route_distance d q)
        (calculate_route_distance d q / speed) q) = calculate_route_distance d q ∧
    elapsed (retimeHead d start (calculate_route_distance d q)
        (calculate_route_distance d q / speed) q) =
      calculate_route_distance d q / speed := by
  cases q with
  | nil => simp at hlen
  | cons p0 tail =>
    cases tail with
    | nil => simp at hlen
    | cons p1 rest =>
      set L := calculate_route_distance d (p0 :: p1 :: rest) with hLdef
      have hLne : L ≠ 0 := ne_of_gt hpos
      have hlen2 : ¬ ((p0 :: p1 :: rest).length < 2) := by
        simp [List.length_cons]
      set T := L / speed with hTdef
      have hP : pathLen d (p0 :: p1 :: rest) = L := by
        rw [hLdef, calculate_route_distance_of_two_le d _ (by omega)]
      have hco := coords_retimeHead d start L T (p0 :: p1 :: rest)
      have hlenout : (retimeHead d start L T (p0 :: p1 :: rest)).length =
          (p0 :: p1 :: rest).length := length_retimeHead d start L T _
      refine ⟨?_, ?_, ?_⟩
      · simp only [regenerate_timestamps_with_speed]
        rw [← hLdef, if_neg hspeed, if_neg hlen2, if_neg hLne]
      · rw [calculate_route_distance_of_two_le d _ (by omega),
          pathLen_eq_of_coords d _ _ hco, hP]
      · unfold elapsed
        have hhead : (retimeHead d start L T (p0 :: p1 :: rest)).headD default =
            { p0 with time := some start } := rfl
        have hlast : tval ((retimeHead d start L T (p0 :: p1 :: rest)).getLastD
            default) = start + (0 + pathLen d (p0 :: p1 :: rest)) / L * T := by
          rw [retimeHead, List.getLastD_cons]
          exact retimeAux_getLastD d start L T (p1 :: rest) 0 p0 _ (by simp)
        rw [hlast, hhead, hP]
        simp [tval]
        field_simp

/-- C4 (amended): for a track with at least two points, a positive
requested duration implying a speed below the 6 km/h floor, the clamp sets
the target speed to the floor; provided the gpx_fix-processed track still
has at least two points, a positive path length, and a path length not
above the original's, the re-timed output's realized average speed equals
the floor exactly and its realized duration is strictly below the
requested one.  Without a positive processed path length the property
fails: a zero-length geometry degenerates to a single point whose realized
average speed is undefined. -/
theorem duration_retimer_floor (d : HavDist) (fix : List Pt → List Pt)
    (dur start : ℚ) (pts : List Pt)
    (_hlen : 2 ≤ pts.length) (hdur : 0 < dur)
    (hslow : calculate_route_distance d pts / (dur * 60) < minSpeedFloor)
    (hlen2 : 2 ≤ (fix pts).length)
    (hpos2 : 0 < calculate_route_distance d (fix pts))
    (hle : calculate_route_distance d (fix pts) ≤ calculate_route_distance d pts) :
    ∃ out, create_and_import_duration d fix dur start pts = Except.ok out ∧
      calculate_route_distance d out = calculate_route_distance d (fix pts) ∧
      elapsed out = calculate_route_distance d (fix pts) / minSpeedFloor ∧
      calculate_route_distance d out / elapsed out = minSpeedFloor ∧
      elapsed out < dur * 60 := by
  have hFpos : (0 : ℚ) < minSpeedFloor := by norm_num [minSpeedFloor]
  have hFne : minSpeedFloor ≠ 0 := ne_of_gt hFpos
  have h60pos : (0 : ℚ) < dur * 60 := by positivity
  have h60 : dur * 60 ≠ 0 := ne_of_gt h60pos
  have htarget : max (calculate_route_distance d pts / (dur * 60)) minSpeedFloor
      = minSpeedFloor := max_eq_right (le_of_lt hslow)
  obtain ⟨hreg, hroute, helaps⟩ :=
    regenerate_ok_props d minSpeedFloor start (fix pts) hlen2 hFne hpos2
  refine ⟨retimeHead d start (calculate_route_distance d (fix pts))
      (calculate_route_distance d (fix pts) / minSpeedFloor) (fix pts),
    ?_, hroute, helaps, ?_, ?_⟩
  · simp only [create_and_import_duration]
    rw [if_neg h60, htarget, hreg]
  · rw [hroute, helaps]
    field_simp
  · rw [helaps]
    have hstep : calculate_route_distance d (fix pts) / minSpeedFloor ≤
        calculate_route_distance d pts / minSpeedFloor := by
      gcongr
    refine lt_of_le_of_lt hstep ?_
    rw [div_lt_iff₀ hFpos]
    rw [div_lt_iff₀ h60pos] at hslow
    linarith

/-- C4 counterexample: two identical untimed points (Haversine distance
exactly 0) with a 5-minute target satisfy the claim's premise — at least
two points and an implied speed 0 below the floor — yet the run does not
produce output with a realized average speed equal to the floor.  The
gpx_fix round trip gives both points the same synthetic timestamp, the
monotonicity pass drops one, and the retimer skips the resulting
single-point segment; the fix instantiation records that reduction (the
synthetic timestamp value is the wall clock; every value behaves the
same).  The imported track has one point, elapsed time 0, and a realized
average speed of 0/0, not the floor. -/
theorem duration_retimer_floor_counterexample :
    (2 ≤ ([⟨0, 0, none, none⟩, ⟨0, 0, none, none⟩] : List Pt).length) ∧
    calculate_route_distance (fun _ _ _ _ => 0)
        [⟨0, 0, none, none⟩, ⟨0, 0, none, none⟩] / (5 * 60) < minSpeedFloor ∧
    create_and_import_duration (fun _ _ _ _ => 0)
        (fun _ => [⟨0, 0, none, some 0⟩]) 5 0
        [⟨0, 0, none, none⟩, ⟨0, 0, none, none⟩] =
      Except.ok [⟨0, 0, none, some 0⟩] ∧
    elapsed ([⟨0, 0, none, some 0⟩] : List Pt) = 0 ∧
    calculate_route_distance (fun _ _ _ _ => 0) [⟨0, 0, none, some 0⟩] /
        elapsed ([⟨0, 0, none, some 0⟩] : List Pt) ≠ minSpeedFloor := by
  refine ⟨by norm_num, ?_, ?_, ?_, ?_⟩
  · norm_num [calculate_route_distance, pathLen, dd, minSpeedFloor]
  · norm_num [create_and_import_duration, regenerate_timestamps_with_speed,
      calculate_route_distance, pathLen, dd, minSpeedFloor]
  · norm_num [elapsed, tval, List.getLastD]
  · norm_num [calculate_route_distance, elapsed, tval, List.getLastD,
      minSpeedFloor]

/-- Closed instance of the duration-floor property: two points 10 m apart
(constant distance function), a 1-minute target, and a processing stage
that leaves this already-clean track unchanged; the implied speed 1/6 m/s
is below the floor, the realized elapsed time is 6 s, the realized speed is
exactly the floor, and 6 s is below the requested 60 s. -/
theorem duration_retimer_floor_witness :
    ∃ out, create_and_import_duration (fun _ _ _ _ => 10) (fun l => l) 1 0
        [⟨0, 0, none, none⟩, ⟨1, 0, none, none⟩] = Except.ok out ∧
      calculate_route_distance (fun _ _ _ _ => 10) out =
        calculate_route_distance (fun _ _ _ _ => 10)
          [⟨0, 0, none, none⟩, ⟨1, 0, none, none⟩] ∧
      elapsed out = calculate_route_distance (fun _ _ _ _ => 10)
          [⟨0, 0, none, none⟩, ⟨1, 0, none, none⟩] / minSpeedFloor ∧
      calculate_route_distance (fun _ _ _ _ => 10) out / elapsed out =
        minSpeedFloor ∧
      elapsed out < 1 * 60 :=
  duration_retimer_floor (fun _ _ _ _ => 10) (fun l => l) 1 0
    [⟨0, 0, none, none⟩, ⟨1, 0, none, none⟩]
    (by norm_num) (by norm_num)
    (by norm_num [calculate_route_distance, pathLen, dd, minSpeedFloor])
    (by norm_num)
    (by norm_num [calculate_route_distance, pathLen, dd])
    (by norm_num)

/-- C5 (amended): for a track with fewer than two points and a positive
requested duration, the Duration Re-timer does not fail:
calculate_route_distance returns 0 instead of raising, the target speed
clamps to the floor, and — the gpx_fix round trip of a track with fewer
than two points again having fewer than two points —
regenerate_timestamps_with_speed skips the segment and returns the
processed track without re-timing it. -/
theorem duration_retimer_small_track (d : HavDist) (fix : List Pt → List Pt)
    (dur start : ℚ) (pts : List Pt)
    (hlen : pts.length < 2) (hdur : 0 < dur)
    (hlen2 : (fix pts).length < 2) :
    calculate_route_distance d pts = 0 ∧
    create_and_import_duration d fix dur start pts = Except.ok (fix pts) := by
  have h60pos : (0 : ℚ) < dur * 60 := by positivity
  have h60 : dur * 60 ≠ 0 := ne_of_gt h60pos
  have hL : calculate_route_distance d pts = 0 := by
    unfold calculate_route_distance
    rw [if_pos hlen]
  refine ⟨hL, ?_⟩
  have hFne : max (calculate_route_distance d pts / (dur * 60)) minSpeedFloor ≠
      0 := by
    rw [hL]
    norm_num [minSpeedFloor]
  have hreg : regenerate_timestamps_with_speed d
      (max (calculate_route_distance d pts / (dur * 60)) minSpeedFloor) start
      (fix pts) = Except.ok (fix pts) := by
    simp only [regenerate_timestamps_with_speed]
    rw [if_neg hFne, if_pos hlen2]
  simp only [create_and_import_duration]
  rw [if_neg h60, hreg]

/-- C5 counterexample: a one-point track whose point is timestamped and has
coordinates already exact at 7 decimals, so the gpx_fix round trip returns
it unchanged (cleaning keeps the timestamped point, resampling and
simplification return short inputs unchanged, quantization fixes these
coordinates); the Duration Re-timer succeeds and returns the point instead
of failing with an EmptyGeometry error (no such error exists in the
code). -/
theorem duration_retimer_small_track_counterexample :
    (([⟨0, 0, none, some 3⟩] : List Pt).length < 2) ∧
    create_and_import_duration (fun _ _ _ _ => 0) (fun l => l) 5 0
        [⟨0, 0, none, some 3⟩] = Except.ok [⟨0, 0, none, some 3⟩] := by
  refine ⟨by norm_num, ?_⟩
  norm_num [create_and_import_duration, regenerate_timestamps_with_speed,
    calculate_route_distance, minSpeedFloor]

/-- Closed instance of the short-track behaviour at a different input: an
empty track with a 7-minute target has route distance 0 and also comes back
from the re-timer without failure. -/
theorem duration_retimer_small_track_witness :
    calculate_route_distance (fun _ _ _ _ => 1) ([] : List Pt) = 0 ∧
    create_and_import_duration (fun _ _ _ _ => 1) (fun l => l) 7 0
        ([] : List Pt) = Except.ok ([] : List Pt) :=
  duration_retimer_small_track (fun _ _ _ _ => 1) (fun l => l) 7 0 []
    (by norm_num) (by norm_num) (by norm_num)

lemma resampleLoop_length (points : List Pt) (step : ℚ) :
    ∀ (n : ℕ) (t : ℚ) (i : ℕ), (resampleLoop points step t i n).length = n := by
  intro n
  induction n with
  | zero => intro t i; rfl
  | succ m ih =>
      intro t i
      simp only [resampleLoop, List.length_cons, ih]

lemma tval_chain_le :
    ∀ (l : List Pt) (p : Pt),
      List.Chain' (fun a b => tval a < tval b) (p :: l) →
      tval p ≤ tval (l.getLastD p) := by
  intro l
  induction l with
  | nil => intro p _; exact le_refl _
  | cons q r ih =>
      intro p hchain
      rw [List.chain'_cons] at hchain
      rw [List.getLastD_cons]
      exact le_trans (le_of_lt hchain.1) (ih q hchain.2)

/-- C6 (amended): for a strictly time-ordered, timestamped input with at
least 2 points and a positive interval, resample_uniform returns
floor((end - start) / interval) + 1 points (the loop steps the clock while
t <= end), which matches ceil((end - start) / interval) + 1 only when the
interval divides the span exactly. -/
theorem resample_point_count (points : List Pt) (interval_s : ℚ)
    (hlen : 2 ≤ points.length)
    (hts : ∀ p ∈ points, p.time.isSome = true)
    (hchain : List.Chain' (fun a b => tval a < tval b) points)
    (hpos : 0 < interval_s) :
    (resample_uniform points interval_s).length =
      (Int.floor ((tval (points.getLastD default) - tval (points.headD default)) /
          interval_s)).toNat + 1 := by
  cases points with
  | nil => simp at hlen
  | cons p0 rest =>
    have hse : tval ((p0 :: rest).headD default) ≤
        tval ((p0 :: rest).getLastD default) := by
      rw [List.headD_cons, List.getLastD_cons]
      exact tval_chain_le rest p0 hchain
    simp only [resample_uniform]
    rw [if_neg (by omega), if_pos ⟨hpos, hse⟩, resampleLoop_length]

/-- C6 counterexample: two points 10 seconds apart resampled at a 3-second
interval give 4 output points (times 0, 3, 6, 9), not
ceil(10 / 3) + 1 = 5. -/
theorem resample_point_count_counterexample :
    (resample_uniform [⟨0, 0, none, some 0⟩, ⟨0, 1, none, some 10⟩] 3).length = 4 ∧
    (Int.ceil (((10 : ℚ) - 0) / 3)).toNat + 1 = 5 := by
  constructor
  · simp only [resample_uniform]
    rw [if_neg (by norm_num)]
    rw [if_pos (by norm_num [tval])]
    rw [resampleLoop_length]
    norm_num [tval]
    decide
  · have h : Int.ceil (((10 : ℚ) - 0) / 3) = 4 := by
      rw [Int.ceil_eq_iff]
      constructor <;> norm_num
    rw [h]
    decide

/-- Closed instance of the floor-plus-one count: three points spanning 7
seconds at a 2-second interval; the theorem's hypotheses hold and the
output length is floor(7 / 2) + 1. -/
theorem resample_point_count_witness :
    (resample_uniform [⟨0, 0, none, some 0⟩, ⟨0, 1, none, some 3⟩,
        ⟨0, 2, none, some 7⟩] 2).length =
      (Int.floor ((tval (([⟨0, 0, none, some 0⟩, ⟨0, 1, none, some 3⟩,
          ⟨0, 2, none, some 7⟩] : List Pt).getLastD default) -
        tval (([⟨0, 0, none, some 0⟩, ⟨0, 1, none, some 3⟩,
          ⟨0, 2, none, some 7⟩] : List Pt).headD default)) / 2)).toNat + 1 :=
  resample_point_count _ 2 (by norm_num)
    (by intro p hp; fin_cases hp <;> rfl)
    (by norm_num [List.chain'_cons, tval])
    (by norm_num)

/-! Helper lemmas for the point cleaner. -/

lemma mem_insertByTime {a p : Pt} :
    ∀ {l : List Pt}, a ∈ insertByTime p l ↔ a = p ∨ a ∈ l := by
  intro l
  induction l with
  | nil => simp [insertByTime]
  | cons q rest ih =>
      by_cases hq : tval q ≤ tval p
      · simp only [insertByTime, if_pos hq, List.mem_cons, ih]
        tauto
      · simp [insertByTime, if_neg hq]

lemma mem_sortByTime_aux :
    ∀ (l acc : List Pt) (a : Pt),
      a ∈ l.foldl (fun acc p => insertByTime p acc) acc ↔ a ∈ acc ∨ a ∈ l := by
  intro l
  induction l with
  | nil => intro acc a; simp
  | cons p rest ih =>
      intro acc a
      simp only [List.foldl_cons, ih, mem_insertByTime, List.mem_cons]
      tauto

lemma mem_sortByTime {a : Pt} {l : List Pt} : a ∈ sortByTime l ↔ a ∈ l := by
  unfold sortByTime
  rw [mem_sortByTime_aux]
  simp

lemma mem_monoFilter {a : Pt} :
    ∀ (t : Option ℚ) (l : List Pt), a ∈ monoFilter t l → a ∈ l := by
  intro t l
  induction l generalizing t with
  | nil => intro h; exact absurd h (by simp [monoFilter])
  | cons p rest ih =>
      intro h
      cases t with
      | none =>
          rw [monoFilter, List.mem_cons] at h
          rcases h with h | h
          · simp [h]
          · exact List.mem_cons_of_mem _ (ih _ h)
      | some tv =>
          rw [monoFilter] at h
          by_cases hc : tval p ≤ tv
          · rw [if_pos hc] at h
            exact List.mem_cons_of_mem _ (ih _ h)
          · rw [if_neg hc, List.mem_cons] at h
            rcases h with h | h
            · simp [h]
            · exact List.mem_cons_of_mem _ (ih _ h)

lemma mem_speedGo {a : Pt} (d : HavDist) (ms md : ℚ) :
    ∀ (l : List Pt) (last : Pt), a ∈ speedGo d ms md last l → a ∈ l := by
  intro l
  induction l with
  | nil => intro last h; exact absurd h (by simp [speedGo])
  | cons p rest ih =>
      intro last h
      simp only [speedGo] at h
      by_cases h1 : tval p - tval last ≤ 0
      · rw [if_pos h1] at h
        exact List.mem_cons_of_mem _ (ih last h)
      · rw [if_neg h1] at h
        by_cases h2 : dd d last p < md
        · rw [if_pos h2] at h
          exact List.mem_cons_of_mem _ (ih last h)
        · rw [if_neg h2] at h
          by_cases h3 : ms < dd d last p / (tval p - tval last)
          · rw [if_pos h3] at h
            exact List.mem_cons_of_mem _ (ih last h)
          · rw [if_neg h3, List.mem_cons] at h
            rcases h with h | h
            · simp [h]
            · exact List.mem_cons_of_mem _ (ih p h)

lemma mem_speedFilter {a : Pt} (d : HavDist) (ms md : ℚ) (l : List Pt) :
    a ∈ speedFilter d ms md l → a ∈ l := by
  cases l with
  | nil => intro h; exact absurd h (by simp [speedFilter])
  | cons p rest =>
      intro h
      rw [speedFilter, List.mem_cons] at h
      rcases h with h | h
      · simp [h]
      · exact List.mem_cons_of_mem _ (mem_speedGo d ms md rest p h)

lemma speedGo_chain (d : HavDist) (ms md : ℚ) :
    ∀ (l : List Pt) (last : Pt),
      List.Chain' (fun a b => tval a < tval b ∧ dd d a b / (tval b - tval a) ≤ ms)
        (last :: speedGo d ms md last l) := by
  intro l
  induction l with
  | nil => intro last; simp [speedGo]
  | cons p rest ih =>
      intro last
      simp only [speedGo]
      by_cases h1 : tval p - tval last ≤ 0
      · rw [if_pos h1]; exact ih last
      · rw [if_neg h1]
        by_cases h2 : dd d last p < md
        · rw [if_pos h2]; exact ih last
        · rw [if_neg h2]
          by_cases h3 : ms < dd d last p / (tval p - tval last)
          · rw [if_pos h3]; exact ih last
          · rw [if_neg h3, List.chain'_cons]
            exact ⟨⟨by linarith [not_le.mp h1], not_lt.mp h3⟩, ih p⟩

lemma speedFilter_chain (d : HavDist) (ms md : ℚ) (l : List Pt) :
    List.Chain' (fun a b => tval a < tval b ∧ dd d a b / (tval b - tval a) ≤ ms)
      (speedFilter d ms md l) := by
  cases l with
  | nil => simp [speedFilter]
  | cons p rest => exact speedGo_chain d ms md rest p

lemma two_le_length_of_mem_ne {α : Type} {a b : α} :
    ∀ {l : List α}, a ∈ l → b ∈ l → a ≠ b → 2 ≤ l.length := by
  intro l
  induction l with
  | nil => intro ha; exact absurd ha (by simp)
  | cons x xs ih =>
      intro ha hb hne
      rw [List.mem_cons] at ha hb
      rcases ha with ha | ha <;> rcases hb with hb | hb
      · exact absurd (ha.trans hb.symm) hne
      · have h1 : 0 < xs.length := List.length_pos.mpr (List.ne_nil_of_mem hb)
        simp only [List.length_cons]
        omega
      · have h1 : 0 < xs.length := List.length_pos.mpr (List.ne_nil_of_mem ha)
        simp only [List.length_cons]
        omega
      · have h2 := ih ha hb hne
        simp only [List.length_cons]
        omega

lemma cleanCore_ok (d : HavDist) (ms md : ℚ) (pts out : List Pt)
    (h : cleanCore d ms md pts = Except.ok out) :
    out = speedFilter d ms md (monoFilter none (sortByTime pts)) ∧
    ¬(2 ≤ pts.length ∧ ∃ p ∈ pts, p.time = none) := by
  unfold cleanCore at h
  by_cases hc : 2 ≤ pts.length ∧ ∃ p ∈ pts, p.time = none
  · rw [if_pos hc] at h
    exact absurd h (by simp)
  · rw [if_neg hc] at h
    refine ⟨?_, hc⟩
    cases h
    rfl

lemma synthGo_allSome (d : HavDist) (avg : ℚ) :
    ∀ (l : List Pt) (p : Pt) (t : ℚ) (q : Pt),
      q ∈ synthGo d avg t p l → q.time.isSome = true := by
  intro l
  induction l with
  | nil =>
      intro p t q hq
      rw [synthGo, List.mem_singleton] at hq
      simp [hq]
  | cons x rest ih =>
      intro p t q hq
      rw [synthGo, List.mem_cons] at hq
      rcases hq with hq | hq
      · simp [hq]
      · exact ih x _ q hq

lemma mem_cleanChain {a : Pt} (d : HavDist) (ms md : ℚ) (pts : List Pt)
    (h : a ∈ speedFilter d ms md (monoFilter none (sortByTime pts))) : a ∈ pts :=
  mem_sortByTime.mp (mem_monoFilter _ _ (mem_speedFilter d ms md _ h))

lemma chain'_imp_of_mem {α : Type} {R S : α → α → Prop} :
    ∀ {l : List α}, (∀ a ∈ l, ∀ b ∈ l, R a b → S a b) →
      List.Chain' R l → List.Chain' S l := by
  intro l
  induction l with
  | nil => intro _ _; simp
  | cons p rest ih =>
      intro hmem hchain
      cases rest with
      | nil => simp
      | cons q r =>
          rw [List.chain'_cons] at hchain ⊢
          refine ⟨hmem p (by simp) q (by simp) hchain.1, ?_⟩
          exact ih (fun a ha b hb hr =>
            hmem a (List.mem_cons_of_mem _ ha) b (List.mem_cons_of_mem _ hb) hr)
            hchain.2

lemma clean_points_ok_props (d : HavDist) (ms md : ℚ) (ats : Bool)
    (avg : Option ℚ) (now : ℚ) (gpx : List RawPoint) (out : List Pt)
    (h : clean_points d ms md ats avg now gpx = Except.ok out) :
    (∀ p ∈ out, p.time.isSome = true) ∧
    List.Chain' (fun a b => tval a < tval b ∧ dd d a b / (tval b - tval a) ≤ ms)
      out := by
  simp only [clean_points] at h
  by_cases h1 : hasTimestamps gpx = false ∧ ats = true ∧ cleanCollect ats gpx ≠ []
  · rw [if_pos h1] at h
    cases hsyn : add_synthetic_timestamps d (avgOr25 avg) now gpx with
    | error e =>
        rw [hsyn] at h
        exact absurd h (by simp)
    | ok pts2 =>
        rw [hsyn] at h
        obtain ⟨hout, _⟩ := cleanCore_ok d ms md pts2 out h
        have hsome2 : ∀ p ∈ pts2, p.time.isSome = true := by
          unfold add_synthetic_timestamps at hsyn
          cases hc : collectPts gpx with
          | nil =>
              rw [hc] at hsyn
              exact absurd hsyn (by simp)
          | cons p rest =>
              rw [hc] at hsyn
              have hpts2 : pts2 = synthGo d (avgOr25 avg) now p rest := by
                cases hsyn
                rfl
              rw [hpts2]
              exact fun q hq => synthGo_allSome d (avgOr25 avg) rest p now q hq
        refine ⟨?_, ?_⟩
        · intro p hp
          exact hsome2 p (mem_cleanChain d ms md pts2 (hout ▸ hp))
        · rw [hout]
          exact speedFilter_chain d ms md _
  · rw [if_neg h1] at h
    by_cases h2 : cleanCollect ats gpx = [] ∨ (hasTimestamps gpx = false ∧ ats = false)
    · rw [if_pos h2] at h
      exact absurd h (by simp)
    · rw [if_neg h2] at h
      obtain ⟨hout, hguard⟩ := cleanCore_ok d ms md _ out h
      have hts : hasTimestamps gpx = true := by
        cases hhts : hasTimestamps gpx with
        | true => rfl
        | false =>
            cases hats : ats with
            | false => exact absurd (Or.inr ⟨hhts, hats⟩) h2
            | true =>
                have hne : cleanCollect ats gpx ≠ [] := fun he => h2 (Or.inl he)
                exact absurd ⟨hhts, hats, hne⟩ h1
      have hsome : ∀ p ∈ cleanCollect ats gpx, p.time.isSome = true := by
        intro p hp
        by_contra hns
        have hpnone : p.time = none := Option.not_isSome_iff_eq_none.mp hns
        obtain ⟨q, hqmem, hqsome⟩ := List.any_eq_true.mp hts
        have hqclean : q ∈ cleanCollect ats gpx :=
          List.mem_filter.mpr ⟨hqmem, by simp [hqsome]⟩
        have hpq : p ≠ q := by
          intro he
          rw [he] at hpnone
          rw [hpnone] at hqsome
          simp at hqsome
        exact hguard ⟨two_le_length_of_mem_ne hp hqclean hpq, p, hp, hpnone⟩
      refine ⟨?_, ?_⟩
      · intro p hp
        exact hsome p (mem_cleanChain d ms md _ (hout ▸ hp))
      · rw [hout]
        exact speedFilter_chain d ms md _

/-- C2: every successful output of clean_points has strictly increasing
timestamps on adjacent pairs. -/
theorem clean_points_monotone (d : HavDist) (max_speed min_dist : ℚ)
    (add_timestamps : Bool) (avg_speed : Option ℚ) (now : ℚ)
    (gpx : List RawPoint) (out : List Pt)
    (h : clean_points d max_speed min_dist add_timestamps avg_speed now gpx =
      Except.ok out) :
    List.Chain' (fun a b => ∃ ta tb, a.time = some ta ∧ b.time = some tb ∧ ta < tb)
      out := by
  obtain ⟨hsome, hchain⟩ := clean_points_ok_props d max_speed min_dist
    add_timestamps avg_speed now gpx out h
  refine chain'_imp_of_mem ?_ hchain
  intro a ha b hb hr
  obtain ⟨ta, hta⟩ := Option.isSome_iff_exists.mp (hsome a ha)
  obtain ⟨tb, htb⟩ := Option.isSome_iff_exists.mp (hsome b hb)
  refine ⟨ta, tb, hta, htb, ?_⟩
  have h1 : tval a = ta := by simp [tval, hta]
  have h2 : tval b = tb := by simp [tval, htb]
  rw [← h1, ← h2]
  exact hr.1

/-- C3: every successful output of clean_points satisfies the speed bound on
adjacent pairs: distance divided by elapsed time is at most max_speed (a
point that would break the bound is dropped, not corrected). -/
theorem clean_points_speed_bound (d : HavDist) (max_speed min_dist : ℚ)
    (add_timestamps : Bool) (avg_speed : Option ℚ) (now : ℚ)
    (gpx : List RawPoint) (out : List Pt)
    (h : clean_points d max_speed min_dist add_timestamps avg_speed now gpx =
      Except.ok out) :
    List.Chain' (fun a b => ∃ ta tb, a.time = some ta ∧ b.time = some tb ∧
      dd d a b / (tb - ta) ≤ max_speed) out := by
  obtain ⟨hsome, hchain⟩ := clean_points_ok_props d max_speed min_dist
    add_timestamps avg_speed now gpx out h
  refine chain'_imp_of_mem ?_ hchain
  intro a ha b hb hr
  obtain ⟨ta, hta⟩ := Option.isSome_iff_exists.mp (hsome a ha)
  obtain ⟨tb, htb⟩ := Option.isSome_iff_exists.mp (hsome b hb)
  refine ⟨ta, tb, hta, htb, ?_⟩
  have h1 : tval a = ta := by simp [tval, hta]
  have h2 : tval b = tb := by simp [tval, htb]
  rw [← h1, ← h2]
  exact hr.2

/-- Closed instance of the monotonicity property: two timestamped points at
0 s and 10 s survive cleaning and come out strictly increasing. -/
theorem clean_points_monotone_witness :
    clean_points (fun _ _ _ _ => 100) 45 2 false none 0
        [⟨some 0, some 0, none, some 0⟩, ⟨some 0, some 1, none, some 10⟩] =
      Except.ok [⟨0, 0, none, some 0⟩, ⟨0, 1, none, some 10⟩] ∧
    List.Chain' (fun a b => ∃ ta tb, a.time = some ta ∧ b.time = some tb ∧ ta < tb)
      ([⟨0, 0, none, some 0⟩, ⟨0, 1, none, some 10⟩] : List Pt) := by
  have heq : clean_points (fun _ _ _ _ => 100) 45 2 false none 0
      [⟨some 0, some 0, none, some 0⟩, ⟨some 0, some 1, none, some 10⟩] =
        Except.ok [⟨0, 0, none, some 0⟩, ⟨0, 1, none, some 10⟩] := by
    norm_num [clean_points, cleanCollect, collectPts, toPt, hasTimestamps,
      cleanCore, sortByTime, insertByTime, monoFilter, speedGo, speedFilter,
      tval, dd, List.filterMap_cons, List.filter, List.any_cons]
    rw [if_neg (by simp), if_neg (by simp)]
  exact ⟨heq, clean_points_monotone (fun _ _ _ _ => 100) 45 2 false none 0
    [⟨some 0, some 0, none, some 0⟩, ⟨some 0, some 1, none, some 10⟩]
    [⟨0, 0, none, some 0⟩, ⟨0, 1, none, some 10⟩] heq⟩

/-- Closed instance of the speed bound: two points 4 m apart and 2 s apart
(implied speed 2 m/s, below 45 m/s) survive cleaning within the bound. -/
theorem clean_points_speed_bound_witness :
    clean_points (fun _ _ _ _ => 4) 45 2 false none 0
        [⟨some 0, some 0, none, some 0⟩, ⟨some 5, some 1, none, some 2⟩] =
      Except.ok [⟨0, 0, none, some 0⟩, ⟨5, 1, none, some 2⟩] ∧
    List.Chain' (fun a b => ∃ ta tb, a.time = some ta ∧ b.time = some tb ∧
        dd (fun _ _ _ _ => 4) a b / (tb - ta) ≤ 45)
      ([⟨0, 0, none, some 0⟩, ⟨5, 1, none, some 2⟩] : List Pt) := by
  have heq : clean_points (fun _ _ _ _ => 4) 45 2 false none 0
      [⟨some 0, some 0, none, some 0⟩, ⟨some 5, some 1, none, some 2⟩] =
        Except.ok [⟨0, 0, none, some 0⟩, ⟨5, 1, none, some 2⟩] := by
    norm_num [clean_points, cleanCollect, collectPts, toPt, hasTimestamps,
      cleanCore, sortByTime, insertByTime, monoFilter, speedGo, speedFilter,
      tval, dd, List.filterMap_cons, List.filter, List.any_cons]
    rw [if_neg (by simp), if_neg (by simp)]
  exact ⟨heq, clean_points_speed_bound (fun _ _ _ _ => 4) 45 2 false none 0
    [⟨some 0, some 0, none, some 0⟩, ⟨some 5, some 1, none, some 2⟩]
    [⟨0, 0, none, some 0⟩, ⟨5, 1, none, some 2⟩] heq⟩
